import Mathlib

/-!
Verification of the tracktion_graph utility nodes (LatencyNode, SummingNode)
and of FadeInOutNode, against a shallow embedding of the C++ sources
`tracktion_graph_UtilityNodes.h` and `tracktion_FadeInOutNode.cpp`.

Audio samples are modelled as rationals, MIDI timestamps as rationals,
sample counts and sample positions as naturals and integers.
-/

namespace TracktionGraph

/-- Modelled from the spec: the NodeProperties structure is declared outside the
two given source files; the spec gives its fields as
hasAudio, hasMidi, numberOfChannels, latencyNumSamples and an opaque nodeID,
all default-initialised (false and 0). Latency is a sample count, hence a natural. -/
structure NodeProperties where
  hasAudio : Bool
  hasMidi : Bool
  numberOfChannels : Nat
  latencyNumSamples : Nat
  nodeID : Nat
deriving DecidableEq

/-- The universe of input nodes a SummingNode can see, as far as latency
alignment is concerned: `base props` stands for an arbitrary already-built node
whose getNodeProperties returns `props`, and `latency input n` is a
LatencyNode wrapping `input` with `numSamplesToDelay = n`
(UtilityNodes.h line 37). Ownership is not modelled: per the spec it affects
destruction only, never processing semantics. -/
inductive Node where
| base (props : NodeProperties)
| latency (input : Node) (numSamplesToDelay : Nat)
deriving DecidableEq

/-- LatencyNode::getNodeProperties (UtilityNodes.h lines 42-48): the input
properties with `latencyNumSamples` increased by the delay of this node. -/
def getNodeProperties : Node → NodeProperties
| Node.base props => props
| Node.latency input n =>
  let props := getNodeProperties input
  { props with latencyNumSamples := props.latencyNumSamples + n }

/-- One iteration of the accumulation loop in SummingNode::getNodeProperties
(UtilityNodes.h lines 166-173). -/
def combineNodeProperties (acc p : NodeProperties) : NodeProperties :=
  { hasAudio := acc.hasAudio || p.hasAudio
    hasMidi := acc.hasMidi || p.hasMidi
    numberOfChannels := max acc.numberOfChannels p.numberOfChannels
    latencyNumSamples := max acc.latencyNumSamples p.latencyNumSamples
    nodeID := acc.nodeID }

/-- SummingNode::getNodeProperties (UtilityNodes.h lines 159-176): fold the
direct inputs over a default-initialised NodeProperties. -/
def summingNodeProperties (nodes : List Node) : NodeProperties :=
  nodes.foldl (fun acc node => combineNodeProperties acc (getNodeProperties node))
    { hasAudio := false, hasMidi := false, numberOfChannels := 0
      latencyNumSamples := 0, nodeID := 0 }

/-- SummingNode::createLatencyNodes (UtilityNodes.h lines 225-275): inputs whose
`latencyToAdd` is zero stay in place; every other input is replaced by a
LatencyNode wrapping it with delay `maxLatency - nodeLatency`, and the
replacements are appended at the end of the input list. -/
def createLatencyNodes (nodes : List Node) : List Node :=
  let maxLatency := (summingNodeProperties nodes).latencyNumSamples
  (nodes.filter fun node =>
      maxLatency - (getNodeProperties node).latencyNumSamples == 0) ++
  ((nodes.filter fun node =>
      maxLatency - (getNodeProperties node).latencyNumSamples != 0).map
    fun node => Node.latency node
      (maxLatency - (getNodeProperties node).latencyNumSamples))

/-- SummingNode::isReadyToProcess (UtilityNodes.h lines 193-200): true iff
every direct input has processed. -/
def summingIsReady (hasProcessed : Node → Bool) (nodes : List Node) : Bool :=
  nodes.all hasProcessed

/-- A timestamped MIDI event: (timestamp in seconds, payload tag). -/
abbrev MidiMsg : Type := Rat × Nat

/-- The per-input audio accumulation of SummingNode::process
(UtilityNodes.h lines 211-215): add the first
`min (source channels) (destination channels)` channels of the source into the
destination, sample-wise; remaining destination channels are untouched. -/
def addSubsetChannels (dest src : List (List Rat)) : List (List Rat) :=
  (dest.zipWith (fun d s => List.zipWith (fun a b => a + b) d s) src) ++
    dest.drop src.length

/-- SummingNode::process (UtilityNodes.h lines 202-219): for each input, add
its audio into the destination and merge its MIDI into the destination MIDI
sequence (MidiMessageArray::mergeFrom, modelled from the spec as an
order-preserving merge by concatenation). -/
def summingProcess (inputOutputs : List (List (List Rat) × List MidiMsg))
    (destAudio : List (List Rat)) (destMidi : List MidiMsg) :
    List (List Rat) × List MidiMsg :=
  inputOutputs.foldl
    (fun acc pr => (addSubsetChannels acc.1 pr.1, acc.2 ++ pr.2))
    (destAudio, destMidi)

lemma le_foldl_max (b : Nat) (l : List Nat) : b ≤ l.foldl max b := by
  induction l generalizing b with
  | nil => exact le_rfl
  | cons x xs ih => exact le_trans (Nat.le_max_left b x) (ih (max b x))

lemma mem_le_foldl_max {a : Nat} {l : List Nat} (h : a ∈ l) (b : Nat) :
    a ≤ l.foldl max b := by
  induction l generalizing b with
  | nil => cases h
  | cons x xs ih =>
    rcases List.mem_cons.mp h with h1 | h2
    · subst h1
      exact le_trans (Nat.le_max_right b a) (le_foldl_max _ _)
    · exact ih h2 (max b x)

lemma summing_foldl_latency (nodes : List Node) (acc : NodeProperties) :
    (nodes.foldl (fun a n => combineNodeProperties a (getNodeProperties n))
        acc).latencyNumSamples
      = (nodes.map fun n => (getNodeProperties n).latencyNumSamples).foldl max
          acc.latencyNumSamples := by
  induction nodes generalizing acc with
  | nil => rfl
  | cons x xs ih =>
    simp only [List.foldl_cons, List.map_cons]
    rw [ih]
    rfl

lemma summingNodeProperties_latency (nodes : List Node) :
    (summingNodeProperties nodes).latencyNumSamples
      = (nodes.map fun n => (getNodeProperties n).latencyNumSamples).foldl max 0 := by
  unfold summingNodeProperties
  rw [summing_foldl_latency]

/-- Claim C1: after the latency-alignment step run by SummingNode::prepareToPlay,
every node in the direct-input list reports a latencyNumSamples equal to the
maximum of the pre-alignment latencies of the inputs. -/
theorem summing_latency_alignment (nodes : List Node) (n : Node)
    (hn : n ∈ createLatencyNodes nodes) :
    (getNodeProperties n).latencyNumSamples
      = (nodes.map fun m => (getNodeProperties m).latencyNumSamples).foldl max 0 := by
  have hmax : (summingNodeProperties nodes).latencyNumSamples
      = (nodes.map fun m => (getNodeProperties m).latencyNumSamples).foldl max 0 :=
    summingNodeProperties_latency nodes
  unfold createLatencyNodes at hn
  rw [hmax] at hn
  rcases List.mem_append.mp hn with hkept | hwrapped
  · rcases List.mem_filter.mp hkept with ⟨hmem, hcond⟩
    have hge : (getNodeProperties n).latencyNumSamples
        ≤ (nodes.map fun m => (getNodeProperties m).latencyNumSamples).foldl max 0 := by
      have hmm : (getNodeProperties n).latencyNumSamples
          ∈ nodes.map fun m => (getNodeProperties m).latencyNumSamples :=
        List.mem_map.mpr ⟨n, hmem, rfl⟩
      exact mem_le_foldl_max hmm 0
    have hle : (nodes.map fun m => (getNodeProperties m).latencyNumSamples).foldl max 0
        ≤ (getNodeProperties n).latencyNumSamples :=
      Nat.sub_eq_zero_iff_le.mp (by simpa using hcond)
    exact le_antisymm hge hle
  · rcases List.mem_map.mp hwrapped with ⟨m, hm, hn1⟩
    rcases List.mem_filter.mp hm with ⟨hmem, _⟩
    have hge : (getNodeProperties m).latencyNumSamples
        ≤ (nodes.map fun w => (getNodeProperties w).latencyNumSamples).foldl max 0 := by
      have hmm : (getNodeProperties m).latencyNumSamples
          ∈ nodes.map fun w => (getNodeProperties w).latencyNumSamples :=
        List.mem_map.mpr ⟨m, hmem, rfl⟩
      exact mem_le_foldl_max hmm 0
    subst hn1
    show (getNodeProperties m).latencyNumSamples
        + ((nodes.map fun w => (getNodeProperties w).latencyNumSamples).foldl max 0
            - (getNodeProperties m).latencyNumSamples)
      = (nodes.map fun w => (getNodeProperties w).latencyNumSamples).foldl max 0
    exact Nat.add_sub_cancel' hge

/-- Witness for C1 on a concrete pair of inputs with latencies 3 and 5. -/
theorem summing_latency_alignment_witness :
    (Node.latency (Node.base ⟨false, false, 0, 3, 0⟩) 2
      ∈ createLatencyNodes
          [Node.base ⟨false, false, 0, 3, 0⟩, Node.base ⟨true, false, 1, 5, 0⟩]) ∧
    (getNodeProperties
        (Node.latency (Node.base ⟨false, false, 0, 3, 0⟩) 2)).latencyNumSamples
      = ([Node.base ⟨false, false, 0, 3, 0⟩, Node.base ⟨true, false, 1, 5, 0⟩].map
          fun m => (getNodeProperties m).latencyNumSamples).foldl max 0 :=
  ⟨by decide, summing_latency_alignment _ _ (by decide)⟩

/-- Claim C10: a SummingNode with an empty input list is well-defined at the
public interface: it is ready to process, reports no audio, no MIDI and zero
channels, and its process call leaves the destination buffers unchanged. -/
theorem summing_empty_inputs (hasProcessed : Node → Bool)
    (destAudio : List (List Rat)) (destMidi : List MidiMsg) :
    summingIsReady hasProcessed [] = true ∧
    (summingNodeProperties []).hasAudio = false ∧
    (summingNodeProperties []).hasMidi = false ∧
    (summingNodeProperties []).numberOfChannels = 0 ∧
    summingProcess [] destAudio destMidi = (destAudio, destMidi) :=
  ⟨rfl, rfl, rfl, rfl, rfl⟩

/-- Modelled from the spec: the AudioFifo of LatencyNode (declared outside the
given sources) is a fixed-capacity ring buffer holding queued samples, sized
`delaySamples + blockSize + 1` so that the write of a block always fits; it is
modelled per channel as the list of queued samples, oldest first.
LatencyNode::prepareToPlay (UtilityNodes.h lines 60-68) pre-fills it with
`latencyNumSamples` samples of silence. -/
def latencyFifoAfterPrepare (latencyNumSamples : Nat) : List Rat :=
  List.replicate latencyNumSamples 0

/-- The audio half of LatencyNode::process (UtilityNodes.h lines 70-88) on one
channel: write the whole incoming block to the fifo, then read one block-sized
chunk out of it, adding into the destination block. -/
def latencyAudioStep (fifo inputBlock destBlock : List Rat) :
    List Rat × List Rat :=
  let fifo2 := fifo ++ inputBlock
  (destBlock.zipWith (fun a b => a + b) (fifo2.take destBlock.length),
   fifo2.drop destBlock.length)

/-- Repeated LatencyNode::process calls over consecutive input blocks, each
rendered into an initially silent destination block of the same length;
returns the per-block output blocks. -/
def latencyAudioRun (fifo : List Rat) : List (List Rat) → List (List Rat)
| [] => []
| c :: cs =>
  let st := latencyAudioStep fifo c (List.replicate c.length 0)
  st.1 :: latencyAudioRun st.2 cs

/-- An impulse signal of length L: sample p is 1, all other samples are 0. -/
def impulseList (p L : Nat) : List Rat :=
  (List.range L).map fun i => if i = p then 1 else 0

/-- Split a signal into k consecutive blocks of size B. -/
def chunkList (B : Nat) : Nat → List Rat → List (List Rat)
| 0, _ => []
| k + 1, l => l.take B :: chunkList B k (l.drop B)

lemma zipWith_add_replicate_zero (n : Nat) (l : List Rat) :
    List.zipWith (fun a b => a + b) (List.replicate n 0) l = l.take n := by
  induction n generalizing l with
  | zero => simp
  | succ m ih =>
    cases l with
    | nil => simp
    | cons x xs =>
      simp only [List.replicate_succ, List.zipWith_cons_cons, List.take_succ_cons,
        zero_add]
      rw [ih]

lemma zipWith_add_replicate_zero_take (n : Nat) (l : List Rat) :
    List.zipWith (fun a b => a + b) (List.replicate n 0) (l.take n) = l.take n := by
  rw [zipWith_add_replicate_zero, List.take_take, Nat.min_self]

lemma latencyAudioRun_flatten (cs : List (List Rat)) (fifo : List Rat) :
    (latencyAudioRun fifo cs).flatten
      = (fifo ++ cs.flatten).take ((cs.map List.length).sum) := by
  induction cs generalizing fifo with
  | nil => simp [latencyAudioRun]
  | cons c cs ih =>
    simp only [latencyAudioRun, latencyAudioStep, List.flatten_cons, List.map_cons,
      List.sum_cons, List.length_replicate]
    rw [ih, zipWith_add_replicate_zero_take]
    have hlen : c.length ≤ (fifo ++ c).length := by
      simp [List.length_append]
    calc ((fifo ++ c).take c.length)
          ++ ((fifo ++ c).drop c.length ++ cs.flatten).take ((cs.map List.length).sum)
        = ((fifo ++ c).take c.length)
          ++ (((fifo ++ c) ++ cs.flatten).drop c.length).take ((cs.map List.length).sum) := by
          rw [List.drop_append_of_le_length hlen]
      _ = (((fifo ++ c) ++ cs.flatten).take c.length)
          ++ (((fifo ++ c) ++ cs.flatten).drop c.length).take ((cs.map List.length).sum) := by
          rw [List.take_append_of_le_length hlen]
      _ = ((fifo ++ c) ++ cs.flatten).take (c.length + (cs.map List.length).sum) := by
          rw [List.take_add]
      _ = (fifo ++ (c :: cs).flatten).take (c.length + (cs.map List.length).sum) := by
          rw [List.flatten_cons, List.append_assoc]

lemma chunkList_flatten (B k : Nat) (l : List Rat) (hl : l.length = k * B) :
    (chunkList B k l).flatten = l ∧ ((chunkList B k l).map List.length).sum = k * B := by
  induction k generalizing l with
  | zero =>
    have : l = [] := List.eq_nil_of_length_eq_zero (by simpa using hl)
    subst this
    simp [chunkList]
  | succ m ih =>
    have hB : B ≤ l.length := by
      rw [hl, Nat.succ_mul]
      exact Nat.le_add_left B (m * B)
    have hdrop : (l.drop B).length = m * B := by
      rw [List.length_drop, hl, Nat.succ_mul, Nat.add_sub_cancel]
    rcases ih (l.drop B) hdrop with ⟨hfl, hsum⟩
    constructor
    · simp only [chunkList, List.flatten_cons, hfl]
      exact List.take_append_drop B l
    · simp only [chunkList, List.map_cons, List.sum_cons, hsum, List.length_take]
      rw [Nat.min_eq_left hB]
      ring

/-- Claim C2: LatencyNode with delay N, prepared with any block size B, maps an
impulse at sample p (processed block by block into silent destinations) to the
same impulse delayed by exactly N samples in the cumulative output. -/
theorem latency_audio_impulse (N B k p j : Nat) (hp : p < k * B) (hj : j < k * B) :
    ((latencyAudioRun (latencyFifoAfterPrepare N)
        (chunkList B k (impulseList p (k * B)))).flatten).getD j 0
      = if j = p + N then (1 : Rat) else 0 := by
  have hlen : (impulseList p (k * B)).length = k * B := by
    simp [impulseList]
  rcases chunkList_flatten B k (impulseList p (k * B)) hlen with ⟨hfl, hsum⟩
  rw [latencyAudioRun_flatten, hfl, hsum]
  unfold latencyFifoAfterPrepare
  rw [List.getD_eq_getElem?_getD, List.getElem?_take, if_pos hj, List.getElem?_append]
  by_cases hjN : j < N
  · rw [if_pos (by simpa using hjN), List.getElem?_replicate, if_pos hjN,
      if_neg (show ¬ j = p + N by omega)]
    rfl
  · rw [if_neg (by simpa using hjN)]
    simp only [List.length_replicate]
    unfold impulseList
    have hjkB : j - N < k * B := by omega
    rw [List.getElem?_map, List.getElem?_range hjkB]
    simp only [Option.map_some', Option.getD_some]
    by_cases he : j - N = p
    · rw [if_pos he, if_pos (by omega)]
    · rw [if_neg he, if_neg (by omega)]

/-- Witness for C2: delay 2, block size 2, 3 blocks, impulse at sample 1
emerges at sample 3. -/
theorem latency_audio_impulse_witness :
    1 < 3 * 2 ∧ 3 < 3 * 2 ∧
    ((latencyAudioRun (latencyFifoAfterPrepare 2)
        (chunkList 2 3 (impulseList 1 (3 * 2)))).flatten).getD 3 0
      = if 3 = 1 + 2 then (1 : Rat) else 0 :=
  ⟨by decide, by decide, latency_audio_impulse 2 2 3 1 3 (by decide) (by decide)⟩

/-- MidiMessageArray::mergeFromWithOffset (declared outside the given sources,
modelled from the spec): append the newly arrived events with every timestamp
offset forward by the delay time. -/
def mergeFromWithOffset (pending incoming : List MidiMsg) (delta : Rat) :
    List MidiMsg :=
  pending ++ incoming.map fun m => (m.1 + delta, m.2)

/-- The MIDI half of LatencyNode::process (UtilityNodes.h lines 90-117):
merge the incoming events into the pending queue offset by
`latencyTimeSeconds`, emit (scanning in reverse index order) every event whose
timestamp is at most the block duration, then shift every remaining timestamp
backward by the block duration. Returns (emitted events in emission order,
pending queue after the shift). -/
def latencyMidiStep (delta blockTime : Rat) (incoming pending : List MidiMsg) :
    List MidiMsg × List MidiMsg :=
  let merged := mergeFromWithOffset pending incoming delta
  ((merged.filter fun m => decide (m.1 ≤ blockTime)).reverse,
   (merged.filter fun m => ! decide (m.1 ≤ blockTime)).map
     fun m => (m.1 - blockTime, m.2))

/-- A sequence of LatencyNode::process calls: each block supplies its duration
in seconds and its incoming MIDI events; returns per block the emitted events
and the pending queue left after the shift. -/
def latencyMidiRun (delta : Rat) :
    List MidiMsg → List (Rat × List MidiMsg) → List (List MidiMsg × List MidiMsg)
| _, [] => []
| pending, (bt, inc) :: rest =>
  let st := latencyMidiStep delta bt inc pending
  st :: latencyMidiRun delta st.2 rest

lemma latencyMidiStep_pending_nonneg (delta bt : Rat) (incoming pending : List MidiMsg)
    (m : MidiMsg) (hm : m ∈ (latencyMidiStep delta bt incoming pending).2) :
    0 ≤ m.1 := by
  unfold latencyMidiStep at hm
  simp only [List.mem_map] at hm
  rcases hm with ⟨w, hw, hwm⟩
  rcases List.mem_filter.mp hw with ⟨_, hcond⟩
  have hgt : bt < w.1 := by
    by_contra hle
    simp [not_lt.mp hle] at hcond
  subst hwm
  simp only
  linarith

/-- Claim C6: over any sequence of process calls whose incoming MIDI events all
carry non-negative block-relative timestamps, after each call shifts the
pending queue backward by the block duration, every timestamp remaining in the
pending queue is non-negative. -/
theorem latency_midi_pending_nonneg (N : Nat) (sr : Rat)
    (blocks : List (Rat × List MidiMsg))
    (hin : ∀ b ∈ blocks, ∀ m ∈ b.2, 0 ≤ m.1) :
    ∀ out ∈ latencyMidiRun ((N : Rat) / sr) [] blocks, ∀ m ∈ out.2, 0 ≤ m.1 := by
  clear hin
  generalize ([] : List MidiMsg) = pending
  induction blocks generalizing pending with
  | nil => intro out hout; cases hout
  | cons b rest ih =>
    intro out hout m hm
    rcases b with ⟨bt, inc⟩
    rcases List.mem_cons.mp hout with h1 | h2
    · subst h1
      exact latencyMidiStep_pending_nonneg _ _ _ _ m hm
    · exact ih _ out h2 m hm

/-- Witness for C6 on one concrete block. -/
theorem latency_midi_pending_nonneg_witness :
    (∀ b ∈ [((1 : Rat), [((0 : Rat), 7)])], ∀ m ∈ b.2, 0 ≤ m.1) ∧
    (∀ out ∈ latencyMidiRun ((2 : Nat) / (1 : Rat)) [] [((1 : Rat), [((0 : Rat), 7)])],
      ∀ m ∈ out.2, 0 ≤ m.1) :=
  ⟨by decide, latency_midi_pending_nonneg 2 1 _ (by decide)⟩

/-- Specification vocabulary for C5: the index (relative to the block in which
a pending timestamp x currently lives) of the block in which the drain loop of
LatencyNode::process emits it, given the upcoming block durations. -/
def emitIndex : List Rat → Rat → Nat
| [], _ => 0
| b :: rest, x => if x ≤ b then 0 else emitIndex rest (x - b) + 1

lemma map_const_list {α β : Type} (l : List α) (b : β) :
    l.map (fun _ => b) = List.replicate l.length b := by
  induction l with
  | nil => rfl
  | cons x xs ih => simp [ih, List.replicate_succ]

lemma range_map_succ_shift {α : Type} (n : Nat) (f : Nat → α) :
    (List.range (n + 1)).map f = f 0 :: (List.range n).map fun j => f (j + 1) := by
  rw [List.range_succ_eq_map, List.map_cons, List.map_map]
  rfl

lemma latencyMidiStep_empty (delta b : Rat) :
    latencyMidiStep delta b [] [] = ([], []) := by
  simp [latencyMidiStep, mergeFromWithOffset]

lemma latencyMidiRun_all_empty (delta : Rat) (bts : List Rat) :
    latencyMidiRun delta [] (bts.map fun b => (b, ([] : List MidiMsg)))
      = bts.map fun _ => ([], []) := by
  induction bts with
  | nil => rfl
  | cons b rest ih =>
    simp only [List.map_cons, latencyMidiRun, latencyMidiStep_empty]
    rw [ih]

lemma singlePendingRun (delta : Rat) (tag : Nat) (bts : List Rat) :
    ∀ x : Rat, 0 ≤ x → x ≤ bts.sum → bts ≠ [] →
    emitIndex bts x < bts.length ∧
    0 ≤ x - (bts.take (emitIndex bts x)).sum ∧
    x - (bts.take (emitIndex bts x)).sum ≤ bts.getD (emitIndex bts x) 0 ∧
    (latencyMidiRun delta [(x, tag)] (bts.map fun b => (b, ([] : List MidiMsg)))).map
        Prod.fst
      = (List.range bts.length).map fun j =>
          if j = emitIndex bts x then [(x - (bts.take (emitIndex bts x)).sum, tag)]
          else [] := by
  induction bts with
  | nil => intro x _ _ hne; exact absurd rfl hne
  | cons bt rest ih =>
    intro x hx hle hne
    by_cases hxb : x ≤ bt
    · have hei : emitIndex (bt :: rest) x = 0 := by simp [emitIndex, hxb]
      rw [hei]
      refine ⟨by simp, by simpa using hx, by simpa using hxb, ?_⟩
      have hst : latencyMidiStep delta bt [] [(x, tag)] = ([(x, tag)], []) := by
        simp [latencyMidiStep, mergeFromWithOffset, hxb]
      simp only [List.map_cons, latencyMidiRun, hst, latencyMidiRun_all_empty,
        List.length_cons]
      rw [range_map_succ_shift]
      simp only [List.take_zero, List.sum_nil, sub_zero, List.map_cons]
      refine List.cons_eq_cons.mpr ⟨by simp, ?_⟩
      rw [List.map_map]
      have hL : (Prod.fst ∘ fun _ : Rat => (([], []) : List MidiMsg × List MidiMsg))
          = fun _ => ([] : List MidiMsg) := rfl
      rw [hL, map_const_list]
      have hfn : (fun j : Nat =>
          if j + 1 = 0 then [((x : Rat), tag)] else ([] : List MidiMsg))
          = fun _ => [] := by
        funext j; simp
      rw [hfn, map_const_list, List.length_range]
    · have hei : emitIndex (bt :: rest) x = emitIndex rest (x - bt) + 1 := by
        simp [emitIndex, hxb]
      have hgt : bt < x := not_le.mp hxb
      have hrestne : rest ≠ [] := by
        intro hr
        rw [hr] at hle
        simp at hle
        exact hxb hle
      have hx2 : 0 ≤ x - bt := by linarith
      have hle2 : x - bt ≤ rest.sum := by
        rw [List.sum_cons] at hle; linarith
      rcases ih (x - bt) hx2 hle2 hrestne with ⟨h1, h2, h3, h4⟩
      rw [hei]
      have hsum : ((bt :: rest).take (emitIndex rest (x - bt) + 1)).sum
          = bt + (rest.take (emitIndex rest (x - bt))).sum := by
        rw [List.take_succ_cons, List.sum_cons]
      refine ⟨by simpa using Nat.succ_lt_succ h1, ?_, ?_, ?_⟩
      · rw [hsum]; linarith [h2]
      · rw [hsum, List.getD_cons_succ]
        have : x - (bt + (rest.take (emitIndex rest (x - bt))).sum)
            = x - bt - (rest.take (emitIndex rest (x - bt))).sum := by ring
        rw [this]; exact h3
      · have hst : latencyMidiStep delta bt [] [(x, tag)] = ([], [(x - bt, tag)]) := by
          simp [latencyMidiStep, mergeFromWithOffset, hxb]
        simp only [List.map_cons, latencyMidiRun, hst, List.length_cons]
        rw [range_map_succ_shift]
        refine List.cons_eq_cons.mpr ⟨by rw [if_neg (by omega)], ?_⟩
        have hshift : (fun j => if j + 1 = emitIndex rest (x - bt) + 1
            then [((x - ((bt :: rest).take (emitIndex rest (x - bt) + 1)).sum : Rat), tag)]
            else ([] : List MidiMsg))
            = fun j => if j = emitIndex rest (x - bt)
              then [((x - bt - (rest.take (emitIndex rest (x - bt))).sum : Rat), tag)]
              else [] := by
          funext j
          by_cases hj : j = emitIndex rest (x - bt)
          · rw [if_pos (by omega), if_pos hj, hsum]
            have : x - (bt + (rest.take (emitIndex rest (x - bt))).sum)
                = x - bt - (rest.take (emitIndex rest (x - bt))).sum := by ring
            rw [this]
          · rw [if_neg (by omega), if_neg hj]
        rw [hshift]
        exact h4

lemma inject_eq_pendingRun (delta t : Rat) (tag : Nat) (bt : Rat) (post : List Rat) :
    latencyMidiRun delta []
        ((bt, [(t, tag)]) :: post.map fun b => (b, ([] : List MidiMsg)))
      = latencyMidiRun delta [(t + delta, tag)]
          ((bt :: post).map fun b => (b, ([] : List MidiMsg))) := by
  have hst : latencyMidiStep delta bt [(t, tag)] []
      = latencyMidiStep delta bt [] [(t + delta, tag)] := by
    simp [latencyMidiStep, mergeFromWithOffset]
  simp only [List.map_cons, latencyMidiRun, hst]

/-- Claim C5: an event carrying non-negative block-relative timestamp t seconds,
fed to LatencyNode with delay N samples at sample rate sr in the block after
the blocks of `pre`, is emitted in exactly one block of the run and at exactly
the block-relative time that corresponds to absolute time t + N/sr: the sum of
the block durations between the injection block and the emission block plus
the emitted timestamp equals t + N/sr, and the emitted timestamp lies within
the emission block. -/
theorem latency_midi_event_delay (pre post : List Rat) (bt t : Rat) (tag N : Nat)
    (sr : Rat) (ht : 0 ≤ t) (hsr : 0 < sr)
    (hemerge : t + (N : Rat) / sr ≤ (bt :: post).sum) :
    emitIndex (bt :: post) (t + (N : Rat) / sr) < post.length + 1 ∧
    0 ≤ t + (N : Rat) / sr
        - ((bt :: post).take (emitIndex (bt :: post) (t + (N : Rat) / sr))).sum ∧
    t + (N : Rat) / sr
        - ((bt :: post).take (emitIndex (bt :: post) (t + (N : Rat) / sr))).sum
      ≤ (bt :: post).getD (emitIndex (bt :: post) (t + (N : Rat) / sr)) 0 ∧
    (latencyMidiRun ((N : Rat) / sr) []
        (pre.map (fun b => (b, ([] : List MidiMsg))) ++
          (bt, [(t, tag)]) :: post.map fun b => (b, ([] : List MidiMsg)))).map Prod.fst
      = (List.range (pre.length + (post.length + 1))).map fun j =>
          if j = pre.length + emitIndex (bt :: post) (t + (N : Rat) / sr)
          then [(t + (N : Rat) / sr
              - ((bt :: post).take (emitIndex (bt :: post) (t + (N : Rat) / sr))).sum,
              tag)]
          else [] := by
  have hx : 0 ≤ t + (N : Rat) / sr :=
    add_nonneg ht (div_nonneg (Nat.cast_nonneg N) hsr.le)
  induction pre with
  | nil =>
    rcases singlePendingRun ((N : Rat) / sr) tag (bt :: post) (t + (N : Rat) / sr) hx
        hemerge (List.cons_ne_nil bt post) with ⟨h1, h2, h3, h4⟩
    refine ⟨by simpa using h1, h2, h3, ?_⟩
    simp only [List.map_nil, List.nil_append, List.length_nil, Nat.zero_add]
    rw [inject_eq_pendingRun]
    simpa using h4
  | cons b pre2 ih =>
    rcases ih with ⟨h1, h2, h3, h4⟩
    refine ⟨h1, h2, h3, ?_⟩
    simp only [List.map_cons, List.cons_append, latencyMidiRun, latencyMidiStep_empty,
      List.length_cons]
    have hlen : pre2.length + 1 + (post.length + 1)
        = (pre2.length + (post.length + 1)) + 1 := by omega
    rw [hlen, range_map_succ_shift]
    refine List.cons_eq_cons.mpr ⟨by rw [if_neg (by omega)], ?_⟩
    have hshift : (fun j =>
          if j + 1 = pre2.length + 1 + emitIndex (bt :: post) (t + (N : Rat) / sr)
          then [((t + (N : Rat) / sr
              - ((bt :: post).take (emitIndex (bt :: post) (t + (N : Rat) / sr))).sum
              : Rat), tag)]
          else ([] : List MidiMsg))
          = fun j =>
            if j = pre2.length + emitIndex (bt :: post) (t + (N : Rat) / sr)
            then [((t + (N : Rat) / sr
                - ((bt :: post).take (emitIndex (bt :: post) (t + (N : Rat) / sr))).sum
                : Rat), tag)]
            else [] := by
      funext j
      by_cases hj : j = pre2.length + emitIndex (bt :: post) (t + (N : Rat) / sr)
      · rw [if_pos (by omega), if_pos hj]
      · rw [if_neg (by omega), if_neg hj]
    rw [hshift]
    exact h4

/-- Witness for C5: one leading block, durations 1 and 1 seconds, event at
t = 1/2 s with a delay of 1 sample at 1 sample per second, emitted in the
second block after injection at relative time 1/2. -/
theorem latency_midi_event_delay_witness :
    (0 : Rat) ≤ 1 / 2 ∧ (0 : Rat) < 1 ∧
    (1 : Rat) / 2 + (1 : Nat) / (1 : Rat) ≤ ([1, 1] : List Rat).sum ∧
    (emitIndex ((1 : Rat) :: [1]) (1 / 2 + (1 : Nat) / (1 : Rat)) < 1 + 1 ∧
      (0 : Rat) ≤ 1 / 2 + (1 : Nat) / (1 : Rat)
        - (((1 : Rat) :: [1]).take
            (emitIndex ((1 : Rat) :: [1]) (1 / 2 + (1 : Nat) / (1 : Rat)))).sum ∧
      (1 : Rat) / 2 + (1 : Nat) / (1 : Rat)
        - (((1 : Rat) :: [1]).take
            (emitIndex ((1 : Rat) :: [1]) (1 / 2 + (1 : Nat) / (1 : Rat)))).sum
        ≤ ((1 : Rat) :: [1]).getD
            (emitIndex ((1 : Rat) :: [1]) (1 / 2 + (1 : Nat) / (1 : Rat))) 0 ∧
      (latencyMidiRun ((1 : Nat) / (1 : Rat)) []
          (([(3 : Rat)]).map (fun b => (b, ([] : List MidiMsg))) ++
            ((1 : Rat), [((1 : Rat) / 2, 9)]) ::
              ([(1 : Rat)]).map fun b => (b, ([] : List MidiMsg)))).map Prod.fst
        = (List.range (([(3 : Rat)]).length + (([(1 : Rat)]).length + 1))).map fun j =>
            if j = ([(3 : Rat)]).length
                + emitIndex ((1 : Rat) :: [1]) (1 / 2 + (1 : Nat) / (1 : Rat))
            then [(1 / 2 + (1 : Nat) / (1 : Rat)
                - (((1 : Rat) :: [1]).take
                    (emitIndex ((1 : Rat) :: [1]) (1 / 2 + (1 : Nat) / (1 : Rat)))).sum,
                9)]
            else []) :=
  ⟨by norm_num, by norm_num, by norm_num,
    latency_midi_event_delay [3] [1] 1 (1 / 2) 9 1 1 (by norm_num) (by norm_num)
      (by norm_num)⟩

/-- A half-open range of timeline sample positions, as a juce Range of int64. -/
structure SampleRange where
  start : Int
  stop : Int
deriving DecidableEq

/-- juce Range::getLength. -/
def SampleRange.length (r : SampleRange) : Int := r.stop - r.start

/-- juce Range::intersects: `other.start < end && start < other.end`. -/
def SampleRange.intersects (a b : SampleRange) : Bool :=
  decide (b.start < a.stop) && decide (a.start < b.stop)

/-- The per-instance configuration of FadeInOutNode after prepareToPlay
(FadeInOutNode.cpp lines 46-50): the fade windows already converted to fixed
sample ranges, plus the clearSamplesOutsideFade flag. -/
structure FadeConfig where
  fadeInSampleRange : SampleRange
  fadeOutSampleRange : SampleRange
  clearExtraSamples : Bool

/-- Modelled from the spec: AudioFadeCurve::applyCrossfadeSection is outside
the given sources; the spec treats the curve shape as a pluggable strategy
writing interpolated amplitude scaling from alpha1 to alpha2 across the
section, and fixes the linear instance by the fade-boundary scenario: sample i
of a section of length len is scaled by alpha1 + (alpha2 - alpha1) * i / len. -/
def applyCrossfadeSection (buf : List Rat) (start len : Nat)
    (alpha1 alpha2 : Rat) : List Rat :=
  List.zipWith
    (fun i x => if start ≤ i ∧ i < start + len
      then (alpha1 + (alpha2 - alpha1) * ((i - start : Nat) : Rat) / (len : Rat)) * x
      else x)
    (List.range buf.length) buf

/-- AudioBlock::getSubBlock(off, n).clear(): zero the samples in [off, off+n). -/
def clearSection (buf : List Rat) (off n : Nat) : List Rat :=
  List.zipWith
    (fun i x => if off ≤ i ∧ i < off + n then (0 : Rat) else x)
    (List.range buf.length) buf

/-- FadeInOutNode::renderingNeeded (FadeInOutNode.cpp lines 156-163). -/
def renderingNeeded (cfg : FadeConfig) (isPlaying : Bool) (tl : SampleRange) : Bool :=
  isPlaying &&
    (cfg.fadeInSampleRange.intersects tl || cfg.fadeOutSampleRange.intersects tl)

/-- startSamp of the fade-in branch (FadeInOutNode.cpp lines 78-89),
after its clamp to 0. -/
def fadeInStartSamp (tl fr : SampleRange) : Int :=
  if fr.start - tl.start > 0 then fr.start - tl.start else 0

/-- alpha1 of the fade-in branch (FadeInOutNode.cpp lines 77-89). -/
def fadeInAlpha1 (tl fr : SampleRange) : Rat :=
  if fr.start - tl.start > 0 then 0
  else ((tl.start - fr.start : Int) : Rat) / ((fr.length : Int) : Rat)

/-- endSamp of the fade-in branch (FadeInOutNode.cpp lines 91-103). -/
def fadeInEndSamp (tl fr : SampleRange) : Int :=
  if tl.stop ≥ fr.stop then tl.stop - fr.stop else tl.length

/-- alpha2 of the fade-in branch (FadeInOutNode.cpp lines 91-103). -/
def fadeInAlpha2 (tl fr : SampleRange) : Rat :=
  if tl.stop ≥ fr.stop then 1
  else max 0 (((tl.stop - fr.start : Int) : Rat) / ((fr.length : Int) : Rat))

/-- The fade-in branch of FadeInOutNode::process (FadeInOutNode.cpp
lines 75-114), acting on one channel of the destination block. -/
def fadeInApply (cfg : FadeConfig) (tl : SampleRange) (dest : List Rat) : List Rat :=
  let fr := cfg.fadeInSampleRange
  let startSamp := fadeInStartSamp tl fr
  let d1 := if fr.start - tl.start > 0 ∧ cfg.clearExtraSamples
    then clearSection dest 0 (fr.start - tl.start).toNat
    else dest
  let endSamp := fadeInEndSamp tl fr
  if endSamp > startSamp
  then applyCrossfadeSection d1 startSamp.toNat (endSamp - startSamp).toNat
        (fadeInAlpha1 tl fr) (fadeInAlpha2 tl fr)
  else d1

/-- startSamp of the fade-out branch (FadeInOutNode.cpp lines 119-125). -/
def fadeOutStartSamp (tl fr : SampleRange) : Int :=
  if fr.start - tl.start ≤ 0 then 0 else fr.start - tl.start

/-- alpha1 of the fade-out branch (FadeInOutNode.cpp lines 118-125). -/
def fadeOutAlpha1 (tl fr : SampleRange) : Rat :=
  if fr.start - tl.start ≤ 0
  then ((tl.start - fr.start : Int) : Rat) / ((fr.length : Int) : Rat)
  else 0

/-- endSamp of the fade-out branch (FadeInOutNode.cpp lines 127-142). -/
def fadeOutEndSamp (tl fr : SampleRange) : Int :=
  if tl.stop ≥ fr.stop then tl.stop - fr.stop else tl.length

/-- alpha2 of the fade-out branch (FadeInOutNode.cpp lines 127-142). -/
def fadeOutAlpha2 (tl fr : SampleRange) : Rat :=
  if tl.stop ≥ fr.stop then 1
  else ((tl.stop - fr.start : Int) : Rat) / ((fr.length : Int) : Rat)

/-- juce jlimit: clamp a value into [lo, hi]. -/
def jlimit (lo hi x : Rat) : Rat :=
  if x < lo then lo else if hi < x then hi else x

/-- The first alpha actually passed to the fade curve by the fade-out branch
(FadeInOutNode.cpp line 150). -/
def fadeOutPassedAlpha1 (tl fr : SampleRange) : Rat :=
  jlimit 0 1 (1 - fadeOutAlpha1 tl fr)

/-- The second alpha actually passed to the fade curve by the fade-out branch
(FadeInOutNode.cpp line 151). -/
def fadeOutPassedAlpha2 (tl fr : SampleRange) : Rat :=
  jlimit 0 1 (1 - fadeOutAlpha2 tl fr)

/-- The fade-out branch of FadeInOutNode::process (FadeInOutNode.cpp
lines 116-153), acting on one channel of the destination block. -/
def fadeOutApply (cfg : FadeConfig) (tl : SampleRange) (dest : List Rat) : List Rat :=
  let fr := cfg.fadeOutSampleRange
  let numSamples := tl.length
  let startSamp := fadeOutStartSamp tl fr
  let endSamp := fadeOutEndSamp tl fr
  let d1 := if tl.stop ≥ fr.stop ∧ cfg.clearExtraSamples ∧ endSamp < numSamples
    then clearSection dest endSamp.toNat (numSamples - endSamp).toNat
    else dest
  if endSamp > startSamp
  then applyCrossfadeSection d1 startSamp.toNat (endSamp - startSamp).toNat
        (fadeOutPassedAlpha1 tl fr) (fadeOutPassedAlpha2 tl fr)
  else d1

/-- FadeInOutNode::process (FadeInOutNode.cpp lines 57-154) on one audio
channel plus the MIDI buffer: copy the input to the destination, stop there
unless rendering is needed, otherwise run the fade-in branch and then the
fade-out branch on the destination audio. MIDI is never modified after the
copy. -/
def fadeProcess (cfg : FadeConfig) (isPlaying : Bool) (tl : SampleRange)
    (audioIn : List Rat) (midiIn : List MidiMsg) : List Rat × List MidiMsg :=
  let destAudio := audioIn
  let destMidi := midiIn
  if ! renderingNeeded cfg isPlaying tl then (destAudio, destMidi)
  else
    let destAudio1 :=
      if tl.intersects cfg.fadeInSampleRange && decide (cfg.fadeInSampleRange.length > 0)
      then fadeInApply cfg tl destAudio
      else destAudio
    let destAudio2 :=
      if tl.intersects cfg.fadeOutSampleRange && decide (cfg.fadeOutSampleRange.length > 0)
      then fadeOutApply cfg tl destAudio1
      else destAudio1
    (destAudio2, destMidi)

/-- Consecutive FadeInOutNode::process calls over a chunked input signal,
starting at the given timeline sample position; returns the per-block output
audio blocks. -/
def fadeRun (cfg : FadeConfig) (isPlaying : Bool) : Int → List (List Rat) → List (List Rat)
| _, [] => []
| tlStart, c :: cs =>
  (fadeProcess cfg isPlaying ⟨tlStart, tlStart + (c.length : Int)⟩ c []).1
    :: fadeRun cfg isPlaying (tlStart + (c.length : Int)) cs

/-- FadeInOutNode::getNodeProperties (FadeInOutNode.cpp lines 33-39). -/
def fadeInOutGetNodeProperties (inputProps : NodeProperties) : NodeProperties :=
  { inputProps with nodeID := 0 }

/-- Claim C9: FadeInOutNode::getNodeProperties returns the input node
properties with every field unchanged except nodeID, which is set to 0. -/
theorem fadeInOut_properties_passthrough (p : NodeProperties) :
    (fadeInOutGetNodeProperties p).hasAudio = p.hasAudio ∧
    (fadeInOutGetNodeProperties p).hasMidi = p.hasMidi ∧
    (fadeInOutGetNodeProperties p).numberOfChannels = p.numberOfChannels ∧
    (fadeInOutGetNodeProperties p).latencyNumSamples = p.latencyNumSamples ∧
    (fadeInOutGetNodeProperties p).nodeID = 0 :=
  ⟨rfl, rfl, rfl, rfl, rfl⟩

/-- Claim C7: when the playhead is not playing, or when the block timeline
range intersects neither fade sample range, FadeInOutNode::process leaves the
destination audio and MIDI exactly equal to the copied input. -/
theorem fade_passthrough (cfg : FadeConfig) (isPlaying : Bool) (tl : SampleRange)
    (audioIn : List Rat) (midiIn : List MidiMsg)
    (h : isPlaying = false ∨
      (cfg.fadeInSampleRange.intersects tl = false ∧
        cfg.fadeOutSampleRange.intersects tl = false)) :
    fadeProcess cfg isPlaying tl audioIn midiIn = (audioIn, midiIn) := by
  have hrn : renderingNeeded cfg isPlaying tl = false := by
    rcases h with h1 | ⟨h2, h3⟩
    · simp [renderingNeeded, h1]
    · simp [renderingNeeded, h2, h3]
  simp [fadeProcess, hrn]

/-- Witness for C7: a block far past both fade windows passes audio and MIDI
through unchanged. -/
theorem fade_passthrough_witness :
    (true = false ∨
      (SampleRange.intersects ⟨0, 10⟩ ⟨100, 101⟩ = false ∧
        SampleRange.intersects ⟨20, 30⟩ ⟨100, 101⟩ = false)) ∧
    fadeProcess ⟨⟨0, 10⟩, ⟨20, 30⟩, true⟩ true ⟨100, 101⟩ [5] [(2, 3)]
      = ([5], [(2, 3)]) :=
  ⟨by decide, fade_passthrough ⟨⟨0, 10⟩, ⟨20, 30⟩, true⟩ true ⟨100, 101⟩ [5] [(2, 3)]
    (by decide)⟩

lemma jlimit_bounds (lo hi x : Rat) (h : lo ≤ hi) :
    lo ≤ jlimit lo hi x ∧ jlimit lo hi x ≤ hi := by
  unfold jlimit
  split_ifs with h1 h2
  · exact ⟨le_rfl, h⟩
  · exact ⟨h, le_rfl⟩
  · exact ⟨not_lt.mp h1, not_lt.mp h2⟩

/-- Claim C8: for every block timeline range intersecting a non-empty fade
sample range, the alpha values FadeInOutNode computes and passes to the
fade-curve application lie in [0, 1]: the raw alpha1 and alpha2 of the fade-in
branch, and the clamped complement alphas of the fade-out branch. -/
theorem fade_alpha_bounds (tl fr : SampleRange)
    (hint : tl.intersects fr = true) (hlen : fr.length > 0) :
    (0 ≤ fadeInAlpha1 tl fr ∧ fadeInAlpha1 tl fr ≤ 1) ∧
    (0 ≤ fadeInAlpha2 tl fr ∧ fadeInAlpha2 tl fr ≤ 1) ∧
    (0 ≤ fadeOutPassedAlpha1 tl fr ∧ fadeOutPassedAlpha1 tl fr ≤ 1) ∧
    (0 ≤ fadeOutPassedAlpha2 tl fr ∧ fadeOutPassedAlpha2 tl fr ≤ 1) := by
  have hint2 : fr.start < tl.stop ∧ tl.start < fr.stop := by
    have := hint
    unfold SampleRange.intersects at this
    simpa using this
  have hlen2 : (0 : Int) < fr.stop - fr.start := by
    have := hlen
    unfold SampleRange.length at this
    omega
  have hlenq : (0 : Rat) < ((fr.length : Int) : Rat) := by
    unfold SampleRange.length
    exact_mod_cast hlen2
  refine ⟨?_, ?_, jlimit_bounds 0 1 _ (by norm_num), jlimit_bounds 0 1 _ (by norm_num)⟩
  · unfold fadeInAlpha1
    split_ifs with h1
    · exact ⟨le_rfl, by norm_num⟩
    · constructor
      · apply div_nonneg _ hlenq.le
        have : (0 : Int) ≤ tl.start - fr.start := by omega
        exact_mod_cast this
      · rw [div_le_one hlenq]
        have : tl.start - fr.start ≤ fr.length := by
          unfold SampleRange.length
          omega
        exact_mod_cast this
  · unfold fadeInAlpha2
    split_ifs with h1
    · exact ⟨by norm_num, le_rfl⟩
    · constructor
      · exact le_max_left 0 _
      · apply max_le (by norm_num)
        rw [div_le_one hlenq]
        have : tl.stop - fr.start ≤ fr.length := by
          unfold SampleRange.length
          omega
        exact_mod_cast this

/-- Witness for C8 on a concrete block and fade range. -/
theorem fade_alpha_bounds_witness :
    SampleRange.intersects ⟨0, 10⟩ ⟨5, 8⟩ = true ∧
    SampleRange.length ⟨5, 8⟩ > 0 ∧
    ((0 ≤ fadeInAlpha1 ⟨0, 10⟩ ⟨5, 8⟩ ∧ fadeInAlpha1 ⟨0, 10⟩ ⟨5, 8⟩ ≤ 1) ∧
      (0 ≤ fadeInAlpha2 ⟨0, 10⟩ ⟨5, 8⟩ ∧ fadeInAlpha2 ⟨0, 10⟩ ⟨5, 8⟩ ≤ 1) ∧
      (0 ≤ fadeOutPassedAlpha1 ⟨0, 10⟩ ⟨5, 8⟩ ∧ fadeOutPassedAlpha1 ⟨0, 10⟩ ⟨5, 8⟩ ≤ 1) ∧
      (0 ≤ fadeOutPassedAlpha2 ⟨0, 10⟩ ⟨5, 8⟩ ∧ fadeOutPassedAlpha2 ⟨0, 10⟩ ⟨5, 8⟩ ≤ 1)) :=
  ⟨by decide, by decide, fade_alpha_bounds ⟨0, 10⟩ ⟨5, 8⟩ (by decide) (by decide)⟩

/-- The C4 scenario configuration: sampleRate 48000, linear fade-in over
samples [0, 4800), no fade-out. -/
def fadeCfg48 (clear : Bool) : FadeConfig := ⟨⟨0, 4800⟩, ⟨0, 0⟩, clear⟩

/-- Claim C4: with the fade-in window [0, 4800) and block size 512, block 0
scales amplitude linearly, sample i by i / 4800; and any block starting at
timeline sample 4800 or later is a pure passthrough. -/
theorem fade_boundary_exactness (clear : Bool) (input : List Rat)
    (hlen : input.length = 512) (i : Nat) (hi : i < 512) (s : Int) (hs : 4800 ≤ s) :
    ((fadeProcess (fadeCfg48 clear) true ⟨0, 512⟩ input []).1).getD i 0
        = input.getD i 0 * ((i : Rat) / 4800) ∧
    (fadeProcess (fadeCfg48 clear) true ⟨s, s + 512⟩ input []).1 = input := by
  constructor
  · have hstep : (fadeProcess (fadeCfg48 clear) true ⟨0, 512⟩ input []).1
        = applyCrossfadeSection input 0 512 0 (max 0 (512 / 4800)) := by
      have ha1 : fadeInAlpha1 ⟨0, 512⟩ ⟨0, 4800⟩ = 0 := by
        norm_num [fadeInAlpha1]
      have ha2 : fadeInAlpha2 ⟨0, 512⟩ ⟨0, 4800⟩ = max 0 (512 / 4800) := by
        norm_num [fadeInAlpha2, SampleRange.length]
      simp [fadeProcess, renderingNeeded, SampleRange.intersects, fadeCfg48,
        fadeInApply, fadeInStartSamp, fadeInEndSamp, SampleRange.length, ha1, ha2]
    rw [hstep]
    have hmax : (max 0 (512 / 4800) : Rat) = 512 / 4800 :=
      max_eq_right (by norm_num)
    rw [hmax]
    have hi2 : i < input.length := by omega
    unfold applyCrossfadeSection
    rw [List.getD_eq_getElem?_getD, List.getD_eq_getElem?_getD,
      List.getElem?_zipWith, List.getElem?_range (by omega : i < input.length),
      List.getElem?_eq_getElem hi2]
    simp only [Option.getD_some]
    rw [if_pos ⟨Nat.zero_le i, by omega⟩, Nat.sub_zero]
    field_simp
    ring
  · have hin : SampleRange.intersects ⟨0, 4800⟩ ⟨s, s + 512⟩ = false := by
      have h1 : ¬ (s < 4800) := by omega
      simp [SampleRange.intersects, h1]
    have hout : SampleRange.intersects ⟨0, 0⟩ ⟨s, s + 512⟩ = false := by
      have h1 : ¬ (s < 0) := by omega
      simp [SampleRange.intersects, h1]
    have hp := fade_passthrough (fadeCfg48 clear) true ⟨s, s + 512⟩ input []
      (Or.inr ⟨hin, hout⟩)
    rw [hp]

/-- Witness for C4: a constant all-ones block; sample 3 of block 0 is scaled
to 3 / 4800, and a block starting exactly at 4800 is unchanged. -/
theorem fade_boundary_exactness_witness :
    (List.replicate 512 (1 : Rat)).length = 512 ∧ 3 < 512 ∧ (4800 : Int) ≤ 4800 ∧
    (((fadeProcess (fadeCfg48 false) true ⟨0, 512⟩ (List.replicate 512 1) []).1).getD 3 0
        = (List.replicate 512 (1 : Rat)).getD 3 0 * ((3 : Rat) / 4800) ∧
      (fadeProcess (fadeCfg48 false) true ⟨4800, 4800 + 512⟩
          (List.replicate 512 1) []).1 = List.replicate 512 1) :=
  ⟨by rw [List.length_replicate], by norm_num, by norm_num,
    fade_boundary_exactness false (List.replicate 512 1)
      (by rw [List.length_replicate]) 3 (by norm_num) 4800 (by norm_num)⟩

/-- The configuration of the C3 counterexample: fade-in over samples [2, 4),
no fade-out, no clearing outside the fade. -/
def fadeCfgBug : FadeConfig := ⟨⟨2, 4⟩, ⟨0, 0⟩, false⟩

/-- Claim C3 is refuted by the code: processing the same six-sample all-ones
signal once as a single block and once as two blocks of three produces
different cumulative FadeInOutNode outputs, because the fade-in branch sets
endSamp to timelineRange.getEnd() - fadeInSampleRange.getEnd() (an offset from
the fade end) instead of the section end offset within the block, so the
single-block run applies no fade at all while the chunked run does. -/
theorem fade_chunking_dependent :
    (fadeRun fadeCfgBug true 0 [List.replicate 6 1]).flatten
      ≠ (fadeRun fadeCfgBug true 0
          [List.replicate 3 1, List.replicate 3 1]).flatten := by
  intro h
  have h2 : ((fadeRun fadeCfgBug true 0 [List.replicate 6 1]).flatten).getD 2 0
      = ((fadeRun fadeCfgBug true 0
          [List.replicate 3 1, List.replicate 3 1]).flatten).getD 2 0 := by
    rw [h]
  have e1 : ((fadeRun fadeCfgBug true 0 [List.replicate 6 1]).flatten).getD 2 0
      = 1 := by rfl
  have e2 : ((fadeRun fadeCfgBug true 0
      [List.replicate 3 1, List.replicate 3 1]).flatten).getD 2 0 = 0 := by
    norm_num [fadeRun, fadeProcess, renderingNeeded, SampleRange.intersects,
      fadeCfgBug, fadeInApply, fadeOutApply, fadeInStartSamp, fadeInEndSamp,
      fadeInAlpha1, fadeInAlpha2, fadeOutStartSamp, fadeOutEndSamp, fadeOutAlpha1,
      fadeOutAlpha2, fadeOutPassedAlpha1, fadeOutPassedAlpha2, jlimit, clearSection,
      applyCrossfadeSection, SampleRange.length, List.range_succ, List.replicate,
      List.getD_cons_succ, List.getD_cons_zero, Int.toNat_ofNat]
    omega
  rw [e1, e2] at h2
  exact one_ne_zero h2

end TracktionGraph
